import Mathlib

/-!
Verification development for the akn-profiler repository.

The repository ships a VS Code client (src/client/src/extension.ts) that
talks to a schema-derived constraint engine over LSP. The engine itself
(schema model, validation engine, cascade engine, generator) is not part
of the checked-in sources here, so its operations are modelled from the
specification document; the client-side helpers are embedded directly
from extension.ts.
-/

namespace AknProfiler

/-- Modelled from the spec: a source position attached to document nodes
and diagnostics (the engine sources are not under src/). -/
structure Pos where
  line : Nat
  col : Nat
deriving Repr, DecidableEq

/-- Modelled from the spec: an attribute restriction carried by a profile
document node — attribute name, whether the restriction removes the
attribute, and the declared value restrictions. -/
structure PAttr where
  name : String
  removed : Bool
  values : List String
deriving Repr, DecidableEq

/-- Modelled from the spec: a ProfileElementNode of the author-facing
restriction document — type name, source position, optional free-text
note, attribute restrictions, ordered child list, and a choice block
(branches given as lists of child-type names). -/
inductive PNode where
  | node (typeName : String) (pos : Pos) (ann : Option String)
      (attrs : List PAttr) (children : List PNode) (choice : List (List String))
deriving Repr

def PNode.typeNameOf : PNode → String
  | .node t _ _ _ _ _ => t

def PNode.posOf : PNode → Pos
  | .node _ p _ _ _ _ => p

def PNode.annOf : PNode → Option String
  | .node _ _ a _ _ _ => a

def PNode.attrsOf : PNode → List PAttr
  | .node _ _ _ ats _ _ => ats

def PNode.childrenOf : PNode → List PNode
  | .node _ _ _ _ cs _ => cs

def PNode.choiceOf : PNode → List (List String)
  | .node _ _ _ _ _ ch => ch

/-- Modelled from the spec: a child-type reference of a schema element
type, with min/max occurrence. -/
structure ChildSpec where
  name : String
  minOccur : Nat
  maxOccur : Option Nat
deriving Repr, DecidableEq

/-- Modelled from the spec: the datatype kind of a schema attribute. -/
inductive AttrKind where
  | enumeration (vals : List String)
  | patterned (pat : String)
  | freeText
deriving Repr, DecidableEq

/-- Modelled from the spec: a schema attribute reference. -/
structure AttrSpec where
  name : String
  kind : AttrKind
  required : Bool
deriving Repr, DecidableEq

/-- Modelled from the spec: a normalized ChoiceGroup — ordered branches,
each an ordered list of child-type names, plus a mandatory flag and the
occurrence bounds of the group itself. -/
structure ChoiceGroup where
  branches : List (List String)
  mandatory : Bool
  minOccur : Nat
  maxOccur : Option Nat
deriving Repr, DecidableEq

/-- Modelled from the spec: a SchemaElementType — name, ordered child
references with cardinalities, attribute references, optional choice
group, documentation text. -/
structure SchemaElementType where
  name : String
  children : List ChildSpec
  attrs : List AttrSpec
  choice : Option ChoiceGroup
  doc : String
deriving Repr, DecidableEq

/-- Modelled from the spec: a SchemaModel is a name-indexed collection of
element types; modelled as an association list looked up by name. -/
abbrev SchemaModel := List SchemaElementType

def lookupType (S : SchemaModel) (t : String) : Option SchemaElementType :=
  S.find? (fun et => et.name == t)

def typeNames (S : SchemaModel) : List String := S.map (·.name)

/-- Modelled from the spec: the schema-required child types of an element
type, in declared sequence order (minimum occurrence at least one). -/
def requiredChildNames (et : SchemaElementType) : List String :=
  (et.children.filter (fun c => 1 ≤ c.minOccur)).map (·.name)

/-- Modelled from the spec: the required attributes an inserted node is
created with. -/
def requiredAttrsOf (et : SchemaElementType) : List PAttr :=
  (et.attrs.filter (·.required)).map (fun a => ⟨a.name, false, []⟩)

/-- Modelled from the spec: a choice-bearing node receives a choice block
populated with the first two declared branch members. -/
def choiceInit (et : SchemaElementType) : List (List String) :=
  match et.choice with
  | none => []
  | some cg => cg.branches.take 2

def hasType (t : String) (n : PNode) : Bool := n.typeNameOf == t

/-- Modelled from the spec (Cascade Engine, engine sources not under
src/): build a fresh node for a type together with its transitively
required subtree and required attributes. The visited list is the chain
of ancestor types of the current expansion; a required child whose type
re-enters that chain is not descended into (cycle guard). Recursion is
fuel-indexed; the engine runs it with fuel strictly above the number of
schema types, which the termination theorem shows is enough. -/
def buildNode (S : SchemaModel) : Nat → List String → String → PNode
  | 0, _, t => .node t ⟨0, 0⟩ none [] [] []
  | fuel+1, visited, t =>
    match lookupType S t with
    | none => .node t ⟨0, 0⟩ none [] [] []
    | some et =>
      .node t ⟨0, 0⟩ none (requiredAttrsOf et)
        (((requiredChildNames et).filter (fun c => c ∉ t :: visited)).map
          (buildNode S fuel (t :: visited)))
        (choiceInit et)

/-- Modelled from the spec (Cascade Engine): complete an existing node —
recursively, every schema-required child type not yet present under the
node is inserted with its own required subtree; types re-entering the
ancestor chain are guarded. Already-present children are completed
recursively; nothing already satisfied is duplicated. -/
def expandNode (S : SchemaModel) : Nat → List String → PNode → PNode
  | 0, _, n => n
  | fuel+1, visited, .node t p a ats cs ch =>
    if t ∈ visited then .node t p a ats cs ch
    else
      match lookupType S t with
      | none => .node t p a ats cs ch
      | some et =>
        .node t p a ats
          (cs.map (expandNode S fuel (t :: visited)) ++
            ((requiredChildNames et).filter
              (fun c => cs.any (hasType c) = false ∧ c ∉ t :: visited)).map
              (buildNode S fuel (t :: visited)))
          ch

/-- Fuel bound used by the engine: one above the number of schema types. -/
def expandFuel (S : SchemaModel) : Nat := (typeNames S).length + 1

/-- Modelled from the spec (Cascade Engine): expansion at an explicit fuel
bound. If a node of the target type is present it is completed in place;
otherwise a fully built node is inserted for it. -/
def expandAux (S : SchemaModel) (fuel : Nat) (t : String) (d : List PNode) :
    List PNode :=
  if d.any (hasType t) then
    d.map (fun n => if hasType t n then expandNode S fuel [] n else n)
  else
    d ++ [buildNode S fuel [] t]

/-- Modelled from the spec: expand(typeName, document) — insert the target
type if absent, then recursively insert every schema-required child type
not yet present, with required attributes, guarded against re-entering an
ancestor type. -/
def expand (S : SchemaModel) (t : String) (d : List PNode) : List PNode :=
  expandAux S (expandFuel S) t d

-- A concrete schema for the Scenario B theorem: root type act with
-- required children meta (1..1) and body (1..1); meta itself requires
-- identification, which carries a required attribute.
def csR (n : String) : ChildSpec := ⟨n, 1, some 1⟩

def actSchema : SchemaModel :=
  [ ⟨"act", [csR "meta", csR "body"], [], none, "root document type"⟩,
    ⟨"meta", [csR "identification"], [], none, "metadata block"⟩,
    ⟨"identification", [], [⟨"source", AttrKind.freeText, true⟩], none, "ident"⟩,
    ⟨"body", [⟨"section", 0, none⟩], [], none, "body block"⟩ ]

def identNode : PNode := .node "identification" ⟨0, 0⟩ none [⟨"source", false, []⟩] [] []
def metaNode : PNode := .node "meta" ⟨0, 0⟩ none [] [identNode] []
def bodyNode : PNode := .node "body" ⟨0, 0⟩ none [] [] []
def actExpanded : PNode := .node "act" ⟨0, 0⟩ none [] [metaNode, bodyNode] []

mutual

/-- Modelled from the spec: every schema-required child type of the node
is present among its children, recursively. -/
def requiredSatisfiedN (S : SchemaModel) : PNode → Bool
  | .node t _ _ _ cs _ =>
    (match lookupType S t with
     | none => true
     | some et => (requiredChildNames et).all (fun c => cs.any (hasType c))) &&
      requiredSatisfiedL S cs

def requiredSatisfiedL (S : SchemaModel) : List PNode → Bool
  | [] => true
  | n :: ns => requiredSatisfiedN S n && requiredSatisfiedL S ns

end

/-- The number of schema type names outside the visited chain; the
decreasing measure of cascade recursion. -/
def notInCount (S : SchemaModel) (v : List String) : Nat :=
  ((typeNames S).filter (fun x => decide (x ∉ v))).length

mutual

def countTypeN (t : String) : PNode → Nat
  | .node tn _ _ _ cs _ => (if tn = t then 1 else 0) + countTypeL t cs

def countTypeL (t : String) : List PNode → Nat
  | [] => 0
  | n :: ns => countTypeN t n + countTypeL t ns

end

/-- A self-referential schema: the component type requires a component
child, exercising the cycle guard. -/
def recSchema : SchemaModel :=
  [⟨"component", [csR "component"], [], none, "self-referential container"⟩]

/-- Modelled from the spec: the error value of the cascade operations. -/
inductive CascadeError where
  | unknownType (name : String)
  | noBaseCase (name : String)
deriving Repr, DecidableEq

mutual

/-- Modelled from the spec: collapse(typeName, document) removes every
node of the named type together with its subtree, except nodes the
author explicitly retained through the free-text note. -/
def collapseNode (t : String) : PNode → PNode
  | .node tn p a ats cs ch => .node tn p a ats (collapseList t cs) ch

def collapseList (t : String) : List PNode → List PNode
  | [] => []
  | n :: ns =>
    if n.typeNameOf = t ∧ n.annOf = none then collapseList t ns
    else collapseNode t n :: collapseList t ns

end

def collapseDoc (t : String) (d : List PNode) : List PNode := collapseList t d

/-- Modelled from the spec: the fallible expand entry point — an unknown
type name yields an error and no delta. -/
def expandE (S : SchemaModel) (t : String) (d : List PNode) :
    Except CascadeError (List PNode) :=
  match lookupType S t with
  | none => .error (.unknownType t)
  | some _ => .ok (expand S t d)

/-- Modelled from the spec: the fallible collapse entry point. -/
def collapseE (S : SchemaModel) (t : String) (d : List PNode) :
    Except CascadeError (List PNode) :=
  match lookupType S t with
  | none => .error (.unknownType t)
  | some _ => .ok (collapseDoc t d)

/-- Modelled from the spec: applying a cascade result to the live
document — a complete delta replaces the document, an error leaves it
untouched. -/
def applyCascade (res : Except CascadeError (List PNode)) (d : List PNode) :
    List PNode :=
  match res with
  | .ok d2 => d2
  | .error _ => d

/-- Modelled from the spec: diagnostic severity. -/
inductive Severity where
  | error
  | warning
  | info
deriving Repr, DecidableEq

/-- Modelled from the spec: a structured diagnostic — severity,
namespaced code, message, source position, the fixed priority of the rule
module that produced it (the sort tiebreak), and an optional fix hint. -/
structure Diagnostic where
  sev : Severity
  code : String
  message : String
  pos : Pos
  prio : Nat
  fix : Option String
deriving Repr, DecidableEq

/-- Modelled from the spec: the output order of diagnostics — by source
position, then by the fixed rule priority. -/
def diagLe (d e : Diagnostic) : Prop :=
  d.pos.line < e.pos.line ∨
    (d.pos.line = e.pos.line ∧
      (d.pos.col < e.pos.col ∨ (d.pos.col = e.pos.col ∧ d.prio ≤ e.prio)))

instance : DecidableRel diagLe := fun d e => by
  unfold diagLe; infer_instance

instance : IsTotal Diagnostic diagLe := ⟨by intro a b; unfold diagLe; omega⟩

instance : IsTrans Diagnostic diagLe := ⟨by intro a b c; unfold diagLe; omega⟩

mutual

def allNodesN : PNode → List PNode
  | .node t p a ats cs ch => .node t p a ats cs ch :: allNodesL cs

def allNodesL : List PNode → List PNode
  | [] => []
  | n :: ns => allNodesN n ++ allNodesL ns

end

def childTypeNamesOf (n : PNode) : List String := n.childrenOf.map PNode.typeNameOf

def choiceMemberNames (n : PNode) : List String := n.choiceOf.flatten

/-- Modelled from the spec: the nearest-match suggestion of the
vocabulary rule, modelled as the first schema name sharing the leading
character of the unknown name. -/
def suggestFor (S : SchemaModel) (t : String) : Option String :=
  (typeNames S).find? (fun c => c.startsWith (t.take 1))

/-- Modelled from the spec: vocabulary rule — every element and attribute
name must exist in the schema at its position. -/
def vocabularyCore (d : List PNode) (S : SchemaModel) : List Diagnostic :=
  ((allNodesL d).map (fun n =>
    (if (lookupType S n.typeNameOf).isSome then []
     else [⟨Severity.error, "vocabulary.unknown-element",
       "unknown element type " ++ n.typeNameOf, n.posOf, 0,
       suggestFor S n.typeNameOf⟩]) ++
    (match lookupType S n.typeNameOf with
     | none => []
     | some et =>
       (n.attrsOf.filter (fun pa => et.attrs.all (fun a => a.name != pa.name))).map
         (fun pa => ⟨Severity.error, "vocabulary.unknown-attribute",
           "unknown attribute " ++ pa.name, n.posOf, 0, none⟩)))).flatten

/-- Modelled from the spec: structure rule — required children present,
maxima not exceeded. -/
def structureCore (d : List PNode) (S : SchemaModel) : List Diagnostic :=
  ((allNodesL d).map (fun n =>
    match lookupType S n.typeNameOf with
    | none => []
    | some et =>
      ((requiredChildNames et).filter
        (fun c => n.childrenOf.any (hasType c) = false)).map
          (fun c => ⟨Severity.error, "structure.missing-required",
            "required child " ++ c ++ " is missing", n.posOf, 1, none⟩) ++
      (et.children.filter (fun cs =>
        match cs.maxOccur with
        | none => false
        | some m => m < (n.childrenOf.filter (hasType cs.name)).length)).map
          (fun cs => ⟨Severity.error, "structure.max-exceeded",
            "child " ++ cs.name ++ " exceeds its maximum occurrence",
            n.posOf, 1, none⟩))).flatten

/-- Modelled from the spec: datatype rule — attribute value restrictions
must conform to the declared enumeration; narrowing a free-text attribute
is accepted. -/
def datatypeCore (d : List PNode) (S : SchemaModel) : List Diagnostic :=
  ((allNodesL d).map (fun n =>
    match lookupType S n.typeNameOf with
    | none => []
    | some et =>
      (n.attrsOf.map (fun pa =>
        match et.attrs.find? (fun a => a.name == pa.name) with
        | none => []
        | some a =>
          match a.kind with
          | AttrKind.enumeration vals =>
            (pa.values.filter (fun vv => vv ∉ vals)).map
              (fun vv => ⟨Severity.error, "datatype.value-not-in-enumeration",
                "value " ++ vv ++ " is not allowed for attribute " ++ pa.name,
                n.posOf, 2, none⟩)
          | AttrKind.patterned _ => []
          | AttrKind.freeText => [])).flatten)).flatten

/-- Modelled from the spec: the designated identity-class attribute
names. -/
def identityAttrNames : List String := ["eId", "wId", "GUID"]

/-- Modelled from the spec: identity rule — identity-class attributes are
only removable where the schema does not mark them mandatory. -/
def identityCore (d : List PNode) (S : SchemaModel) : List Diagnostic :=
  ((allNodesL d).map (fun n =>
    match lookupType S n.typeNameOf with
    | none => []
    | some et =>
      (n.attrsOf.filter (fun pa => pa.removed = true ∧ pa.name ∈ identityAttrNames ∧
        et.attrs.any (fun a => a.name = pa.name ∧ a.required = true))).map
          (fun pa => ⟨Severity.error, "identity.mandatory-not-removable",
            "identity attribute " ++ pa.name ++ " is schema-mandatory",
            n.posOf, 3, none⟩))).flatten

/-- Modelled from the spec: strictness rule — flag children present but
undeclared by the schema at this position, including choice members. -/
def strictnessCore (d : List PNode) (S : SchemaModel) : List Diagnostic :=
  ((allNodesL d).map (fun n =>
    match lookupType S n.typeNameOf with
    | none => []
    | some et =>
      ((childTypeNamesOf n).filter
        (fun c => et.children.all (fun cs => cs.name != c))).map
          (fun c => ⟨Severity.warning, "strictness.undeclared-child",
            "child " ++ c ++ " is not declared by the schema here",
            n.posOf, 4, none⟩) ++
      ((choiceMemberNames n).filter (fun c =>
        et.children.all (fun cs => cs.name != c) &&
          (match et.choice with
           | none => true
           | some cg => cg.branches.all (fun b => c ∉ b)))).map
          (fun c => ⟨Severity.warning, "strictness.undeclared-choice-member",
            "choice member " ++ c ++ " is not declared by the schema here",
            n.posOf, 4, none⟩))).flatten

/-- Modelled from the spec: the five diagnostics of the choice rule for
one node. The duplicate check (a name in both the plain child list and
the choice block) is schema-independent. -/
def nodeChoiceDiags (S : SchemaModel) (n : PNode) : List Diagnostic :=
  ((childTypeNamesOf n).filter (fun c => c ∈ choiceMemberNames n)).map
    (fun c => ⟨Severity.error, "choice.duplicate-in-choice",
      "child " ++ c ++ " appears in both the child list and the choice block",
      n.posOf, 5, none⟩) ++
  (if n.choiceOf ≠ [] ∧ n.choiceOf.length < 2 then
    [⟨Severity.warning, "choice.too-few-branches",
      "a choice block needs at least two branches", n.posOf, 5, none⟩]
   else []) ++
  (match lookupType S n.typeNameOf with
   | none => []
   | some et =>
     match et.choice with
     | none => []
     | some grp =>
       (if grp.mandatory = true ∧ n.choiceOf = [] then
         [⟨Severity.error, "choice.required-group-empty",
           "mandatory choice group declared with zero branches", n.posOf, 5, none⟩]
        else []) ++
       ((choiceMemberNames n).filter
         (fun c => grp.branches.all (fun b => c ∉ b))).map
           (fun c => ⟨Severity.error, "choice.invalid-branch-member",
             "branch member " ++ c ++ " is not valid here", n.posOf, 5, none⟩) ++
       (if 2 ≤ (grp.branches.filter
           (fun b => b.any (fun c => (childTypeNamesOf n).contains c))).length then
         [⟨Severity.error, "choice.mixed-branches",
           "children are drawn from two or more exclusive branches", n.posOf, 5, none⟩]
        else []))

/-- Modelled from the spec: choice rule over the whole document. -/
def choiceCore (d : List PNode) (S : SchemaModel) : List Diagnostic :=
  ((allNodesL d).map (nodeChoiceDiags S)).flatten

/-- Modelled from the spec: the failure value of a misbehaving rule
module. -/
inductive RuleCrash where
  | crashed (msg : String)
deriving Repr, DecidableEq

/-- Modelled from the spec: a rule module is a pure function over
(document, schema model) that either produces diagnostics or fails. -/
abbrev RuleModule := List PNode → SchemaModel → Except RuleCrash (List Diagnostic)

/-- Modelled from the spec: the module boundary — a failing module is
caught and contributes zero diagnostics. -/
def moduleDiags (m : RuleModule) (d : List PNode) (S : SchemaModel) :
    List Diagnostic :=
  match m d S with
  | .ok ds => ds
  | .error _ => []

/-- Modelled from the spec: run a registry of rule modules, concatenating
module outputs in the fixed registry order. -/
def runModules (mods : List RuleModule) (d : List PNode) (S : SchemaModel) :
    List Diagnostic :=
  (mods.map (fun m => moduleDiags m d S)).flatten

def vocabularyModule : RuleModule := fun d S => .ok (vocabularyCore d S)
def structureModule : RuleModule := fun d S => .ok (structureCore d S)
def datatypeModule : RuleModule := fun d S => .ok (datatypeCore d S)
def identityModule : RuleModule := fun d S => .ok (identityCore d S)
def strictnessModule : RuleModule := fun d S => .ok (strictnessCore d S)
def choiceModule : RuleModule := fun d S => .ok (choiceCore d S)

/-- Modelled from the spec: the six rule modules in their fixed execution
order — vocabulary, structure, datatype, identity, strictness, choice. -/
def ruleRegistry : List RuleModule :=
  [vocabularyModule, structureModule, datatypeModule,
   identityModule, strictnessModule, choiceModule]

/-- Modelled from the spec: validate(document, schemaModel) — the six
rule modules composed, with the output finally sorted by source position
and rule priority. -/
def validate (d : List PNode) (S : SchemaModel) : List Diagnostic :=
  List.insertionSort diagLe (runModules ruleRegistry d S)

-- A concrete document for the choice-exclusivity witness: the child
-- type section appears both as a plain child and as a choice member.
def dupChild : PNode := .node "section" ⟨2, 0⟩ none [] [] []
def dupNode : PNode := .node "x" ⟨1, 0⟩ none [] [dupChild] [["section"]]

abbrev OrderKey := Nat × Nat × String

/-- Modelled from the spec: the lexicographic order on canonical sort
keys. -/
def keyLe (a b : OrderKey) : Prop :=
  a.1 < b.1 ∨
    (a.1 = b.1 ∧ (a.2.1 < b.2.1 ∨ (a.2.1 = b.2.1 ∧ a.2.2 ≤ b.2.2)))

instance : DecidableRel keyLe := fun a b => by
  unfold keyLe; infer_instance

def sortByKey {α : Type} (k : α → OrderKey) (l : List α) : List α :=
  List.insertionSort (fun a b => keyLe (k a) (k b)) l

/-- Modelled from the spec: bounded reachability between schema types
through declared children, used by the topological root order. -/
def reachesB (S : SchemaModel) : Nat → String → String → Bool
  | 0, _, _ => false
  | fuel+1, a, b =>
    match lookupType S a with
    | none => false
    | some et =>
      (et.children.map (·.name)).any (fun c => c == b || reachesB S fuel c b)

/-- Modelled from the spec: the topological rank of a type — the number
of distinct types that reach it, so a parent type sorts before its own
child types, with the alphabetical component as tiebreak. -/
def topoRank (S : SchemaModel) (t : String) : Nat :=
  ((typeNames S).filter
    (fun p => p != t && reachesB S ((typeNames S).length + 1) p t)).length

/-- Modelled from the spec: canonical key of a root-level sibling —
topological rank with alphabetical tiebreak. -/
def rootKey (S : SchemaModel) (n : PNode) : OrderKey :=
  (topoRank S n.typeNameOf, 0, n.typeNameOf)

/-- Modelled from the spec: canonical key of a child — required children
first, then the declared sequence order of the schema. -/
def childKey (S : SchemaModel) (parent : String) (n : PNode) : OrderKey :=
  match lookupType S parent with
  | none => (1, 0, n.typeNameOf)
  | some et =>
    match et.children.find? (fun cs => cs.name == n.typeNameOf) with
    | none => (2, 0, n.typeNameOf)
    | some cs =>
      ((if 1 ≤ cs.minOccur then 0 else 1),
        et.children.findIdx (fun c => c.name == n.typeNameOf),
        n.typeNameOf)

/-- Modelled from the spec: canonical key of an attribute — required
attributes first, then the declared field order of the schema. -/
def attrKey (S : SchemaModel) (parent : String) (pa : PAttr) : OrderKey :=
  match lookupType S parent with
  | none => (1, 0, pa.name)
  | some et =>
    match et.attrs.find? (fun a => a.name == pa.name) with
    | none => (2, 0, pa.name)
    | some a =>
      ((if a.required then 0 else 1),
        et.attrs.findIdx (fun a2 => a2.name == pa.name),
        pa.name)

mutual

/-- Modelled from the spec: reorder(document) — canonical ordering
applied recursively to children and attributes of every node. -/
def reorderNode (S : SchemaModel) : PNode → PNode
  | .node t p a ats cs ch =>
    .node t p a (sortByKey (attrKey S t) ats)
      (sortByKey (childKey S t) (reorderList S cs)) ch

def reorderList (S : SchemaModel) : List PNode → List PNode
  | [] => []
  | n :: ns => reorderNode S n :: reorderList S ns

end

/-- Modelled from the spec: reorder(document), root siblings ordered
topologically with alphabetical tiebreak. -/
def reorder (S : SchemaModel) (d : List PNode) : List PNode :=
  sortByKey (rootKey S) (reorderList S d)

/-- From src/client/src/extension.ts, registerCursorToLineCommand: the
target position of the akn-profiler.cursorToLine command — the line is
clamped by Math.min against lineCount - 1 and the character by Math.max
against 0. -/
def cursorTarget (line character : Int) (lineCount : Nat) : Int × Int :=
  (min line ((lineCount : Int) - 1), max 0 character)

/-- Model of the JavaScript toLowerCase used by extension.ts, as the
character-wise lowercase map. -/
def lowerStr (s : String) : String := ⟨s.data.map Char.toLower⟩

/-- Model of the JavaScript endsWith used by extension.ts. -/
def strEndsWith (s suffix : String) : Bool := suffix.data.isSuffixOf s.data

/-- From src/client/src/extension.ts, isAknProfile: a document is an AKN
profile when its languageId is akn-profile or its lowercased file name
ends with .akn.yaml or .akn.yml. -/
def isAknProfile (languageId fileName : String) : Bool :=
  if languageId == "akn-profile" then true
  else
    strEndsWith (lowerStr fileName) ".akn.yaml" ||
      strEndsWith (lowerStr fileName) ".akn.yml"

/-- A rule module that always fails, for the isolation witness. -/
def crashingModule : RuleModule := fun _ _ => .error (.crashed "boom")

end AknProfiler

namespace AknProfiler

/-! ### Supporting lemmas for the cascade engine -/

theorem typeNameOf_buildNode (S : SchemaModel) (fuel : Nat) (v : List String)
    (t : String) : (buildNode S fuel v t).typeNameOf = t := by
  cases fuel with
  | zero => rfl
  | succ f =>
    unfold buildNode
    cases lookupType S t <;> rfl

theorem typeNameOf_expandNode (S : SchemaModel) (fuel : Nat) (v : List String)
    (n : PNode) : (expandNode S fuel v n).typeNameOf = n.typeNameOf := by
  cases fuel with
  | zero => rfl
  | succ f =>
    cases n with
    | node t p a ats cs ch =>
      unfold expandNode
      by_cases hv : t ∈ v
      · simp [hv]
      · simp only [hv, if_false]
        cases lookupType S t <;> rfl

theorem hasType_buildNode (S : SchemaModel) (fuel : Nat) (v : List String)
    (t : String) : hasType t (buildNode S fuel v t) = true := by
  simp [hasType, typeNameOf_buildNode]

theorem hasType_expandNode (S : SchemaModel) (fuel : Nat) (v : List String)
    (c : String) (n : PNode) : hasType c (expandNode S fuel v n) = hasType c n := by
  simp [hasType, typeNameOf_expandNode]

theorem expandNode_fix (S : SchemaModel) :
    ∀ fuel : Nat,
      (∀ (v : List String) (t : String),
        expandNode S fuel v (buildNode S fuel v t) = buildNode S fuel v t) ∧
      (∀ (v : List String) (n : PNode),
        expandNode S fuel v (expandNode S fuel v n) = expandNode S fuel v n) := by
  intro fuel
  induction fuel with
  | zero => exact ⟨fun _ _ => rfl, fun _ _ => rfl⟩
  | succ f ih =>
    obtain ⟨ihB, ihE⟩ := ih
    constructor
    · intro v t
      by_cases hv : t ∈ v
      · cases hB : buildNode S (f+1) v t with
        | node tn p a ats cs ch =>
          have htn : tn = t := by
            have := typeNameOf_buildNode S (f+1) v t
            rw [hB] at this; exact this
          subst htn
          simp [expandNode, hv]
      · cases hLook : lookupType S t with
        | none =>
          simp [buildNode, hLook, expandNode, hv]
        | some et =>
          simp only [buildNode, hLook]
          rw [expandNode]
          simp only [hv, if_false, hLook]
          have h1 : (((requiredChildNames et).filter
              (fun c => decide (c ∉ t :: v))).map (buildNode S f (t :: v))).map
                (expandNode S f (t :: v)) =
              ((requiredChildNames et).filter
                (fun c => decide (c ∉ t :: v))).map (buildNode S f (t :: v)) := by
            rw [List.map_map]
            exact List.map_congr_left (fun c _ => ihB (t :: v) c)
          have h2 : (requiredChildNames et).filter
              (fun c => decide ((((requiredChildNames et).filter
                (fun c => decide (c ∉ t :: v))).map
                  (buildNode S f (t :: v))).any (hasType c) = false ∧ c ∉ t :: v)) = [] := by
            rw [List.filter_eq_nil_iff]
            intro c hc
            simp only [decide_eq_true_eq, not_and]
            intro hfalse hmem
            have hin : buildNode S f (t :: v) c ∈
                ((requiredChildNames et).filter
                  (fun c => decide (c ∉ t :: v))).map (buildNode S f (t :: v)) :=
              List.mem_map_of_mem _ (List.mem_filter.mpr ⟨hc, decide_eq_true hmem⟩)
            have : (((requiredChildNames et).filter
                (fun c => decide (c ∉ t :: v))).map (buildNode S f (t :: v))).any
                  (hasType c) = true :=
              List.any_eq_true.mpr ⟨_, hin, hasType_buildNode S f (t :: v) c⟩
            rw [hfalse] at this
            exact Bool.false_ne_true this
          rw [h1, h2]
          simp
    · intro v n
      cases n with
      | node t p a ats cs ch =>
        by_cases hv : t ∈ v
        · simp [expandNode, hv]
        · cases hLook : lookupType S t with
          | none => simp [expandNode, hv, hLook]
          | some et =>
            rw [expandNode]
            simp only [hv, if_false, hLook]
            rw [expandNode]
            simp only [hv, if_false, hLook]
            set eN := expandNode S f (t :: v) with heN
            set bN := buildNode S f (t :: v) with hbN
            set missing := (requiredChildNames et).filter
              (fun c => decide (cs.any (hasType c) = false ∧ c ∉ t :: v)) with hmiss
            have h1 : (cs.map eN ++ missing.map bN).map eN = cs.map eN ++ missing.map bN := by
              rw [List.map_append, List.map_map, List.map_map]
              congr 1
              · exact List.map_congr_left (fun x _ => ihE (t :: v) x)
              · exact List.map_congr_left (fun c _ => ihB (t :: v) c)
            have h2 : (requiredChildNames et).filter
                (fun c => decide ((cs.map eN ++ missing.map bN).any (hasType c) = false ∧
                  c ∉ t :: v)) = [] := by
              rw [List.filter_eq_nil_iff]
              intro c hc
              simp only [decide_eq_true_eq, not_and]
              intro hfalse hmem
              have hany : (cs.map eN ++ missing.map bN).any (hasType c) = true := by
                rw [List.any_append]
                cases hcs : cs.any (hasType c) with
                | true =>
                  have hfun : (hasType c ∘ eN) = hasType c := by
                    funext x; exact hasType_expandNode S f (t :: v) c x
                  have : (cs.map eN).any (hasType c) = true := by
                    rw [List.any_map, hfun]; exact hcs
                  simp [this]
                | false =>
                  have hcm : c ∈ missing := by
                    rw [hmiss]
                    exact List.mem_filter.mpr ⟨hc, by simp [hcs, hmem]⟩
                  have : (missing.map bN).any (hasType c) = true :=
                    List.any_eq_true.mpr ⟨bN c, List.mem_map_of_mem _ hcm,
                      hasType_buildNode S f (t :: v) c⟩
                  simp [this]
              rw [hfalse] at hany
              exact Bool.false_ne_true hany
            rw [h1, h2]
            simp

theorem filter_imp_length {α : Type} (p q : α → Bool)
    (h : ∀ x, p x = true → q x = true) :
    ∀ l : List α, (l.filter p).length ≤ (l.filter q).length := by
  intro l
  induction l with
  | nil => simp
  | cons a l ih =>
    cases hp : p a with
    | true =>
      have hq := h a hp
      simp [List.filter_cons, hp, hq]
      omega
    | false =>
      cases hq : q a with
      | true => simp [List.filter_cons, hp, hq]; omega
      | false => simp [List.filter_cons, hp, hq]; omega

theorem notInCount_lt (S : SchemaModel) (t : String) (v : List String)
    (htm : t ∈ typeNames S) (hv : t ∉ v) :
    notInCount S (t :: v) < notInCount S v := by
  unfold notInCount
  generalize typeNames S = l at htm
  induction l with
  | nil => cases htm
  | cons a l ih =>
    by_cases hat : a = t
    · subst hat
      have hp : (decide (a ∉ a :: v)) = false := by simp
      have hq : (decide (a ∉ v)) = true := by simpa using hv
      have hle := filter_imp_length (fun x => decide (x ∉ a :: v)) (fun x => decide (x ∉ v))
        (by intro x hx; simp at hx ⊢; exact hx.2) l
      rw [List.filter_cons, List.filter_cons]
      simp only [hp, hq, Bool.false_eq_true, if_false, if_true, List.length_cons]
      omega
    · have htl : t ∈ l := by
        cases htm with
        | head => exact absurd rfl hat
        | tail _ h => exact h
      have heq : (decide (a ∉ t :: v)) = (decide (a ∉ v)) := by
        by_cases hav : a ∈ v
        · simp [hav]
        · simp [hav, hat]
      have ihl := ih htl
      cases hq : (decide (a ∉ v)) with
      | true =>
        rw [List.filter_cons, List.filter_cons, heq, hq]
        simp only [if_true, List.length_cons]
        omega
      | false =>
        rw [List.filter_cons, List.filter_cons, heq, hq]
        simp only [Bool.false_eq_true, if_false]
        omega

theorem lookupType_mem (S : SchemaModel) (t : String) (et : SchemaElementType)
    (h : lookupType S t = some et) : t ∈ typeNames S := by
  unfold lookupType at h
  have h1 : et ∈ S := List.mem_of_find?_eq_some h
  have h2 := List.find?_some h
  have h3 : et.name = t := by simpa using h2
  rw [← h3]
  exact List.mem_map_of_mem _ h1

theorem cascade_stab (S : SchemaModel) :
    ∀ f₁ : Nat, ∀ (f₂ : Nat) (v : List String),
      (∀ t, t ∉ v → notInCount S v < f₁ → notInCount S v < f₂ →
        buildNode S f₁ v t = buildNode S f₂ v t) ∧
      (∀ n, notInCount S v < f₁ → notInCount S v < f₂ →
        expandNode S f₁ v n = expandNode S f₂ v n) := by
  intro f₁
  induction f₁ with
  | zero =>
    intro f₂ v
    constructor
    · intro t _ h1 _; omega
    · intro n h1 _; omega
  | succ f ih =>
    intro f₂ v
    constructor
    · intro t ht h1 h2
      cases f₂ with
      | zero => omega
      | succ g =>
        cases hLook : lookupType S t with
        | none => simp [buildNode, hLook]
        | some et =>
          have htm := lookupType_mem S t et hLook
          have hdec := notInCount_lt S t v htm ht
          simp only [buildNode, hLook]
          congr 1
          apply List.map_congr_left
          intro c hc
          have hcv : c ∉ t :: v := by
            have := (List.mem_filter.mp hc).2
            simpa using this
          exact (ih g (t :: v)).1 c hcv (by omega) (by omega)
    · intro n h1 h2
      cases f₂ with
      | zero => omega
      | succ g =>
        cases n with
        | node t p a ats cs ch =>
          by_cases hv : t ∈ v
          · simp [expandNode, hv]
          · cases hLook : lookupType S t with
            | none => simp [expandNode, hv, hLook]
            | some et =>
              have htm := lookupType_mem S t et hLook
              have hdec := notInCount_lt S t v htm hv
              rw [expandNode, expandNode]
              rw [if_neg hv, if_neg hv]
              simp only [hLook]
              congr 1
              congr 1
              · apply List.map_congr_left
                intro x _
                exact (ih g (t :: v)).2 x (by omega) (by omega)
              · apply List.map_congr_left
                intro c hc
                have hcv : c ∉ t :: v := by
                  have := (List.mem_filter.mp hc).2
                  simp at this
                  simpa using this.2
                exact (ih g (t :: v)).1 c hcv (by omega) (by omega)

theorem notInCount_nil (S : SchemaModel) :
    notInCount S [] = (typeNames S).length := by
  unfold notInCount
  have : ∀ x : String, (decide (x ∉ ([] : List String))) = true := by simp
  rw [List.filter_eq_self.mpr (fun a _ => this a)]

theorem expandAux_stab (S : SchemaModel) (t : String) (d : List PNode) (k : Nat) :
    expandAux S (expandFuel S + k) t d = expandAux S (expandFuel S) t d := by
  have hb : notInCount S [] < expandFuel S := by
    rw [notInCount_nil]; unfold expandFuel; omega
  have hb2 : notInCount S [] < expandFuel S + k := by omega
  unfold expandAux
  by_cases h : d.any (hasType t) = true
  · rw [if_pos h, if_pos h]
    apply List.map_congr_left
    intro n _
    by_cases hn : hasType t n = true
    · rw [if_pos hn, if_pos hn]
      exact (cascade_stab S (expandFuel S + k) (expandFuel S) []).2 n hb2 hb
    · rw [if_neg hn, if_neg hn]
  · rw [if_neg h, if_neg h]
    congr 2
    exact (cascade_stab S (expandFuel S + k) (expandFuel S) []).1 t
      (by simp) hb2 hb

end AknProfiler

namespace AknProfiler

/-! ### Supporting lemmas for canonical ordering -/

theorem keyLe_total (a b : OrderKey) : keyLe a b ∨ keyLe b a := by
  unfold keyLe
  rcases Nat.lt_trichotomy a.1 b.1 with h | h | h
  · exact Or.inl (Or.inl h)
  · rcases Nat.lt_trichotomy a.2.1 b.2.1 with h2 | h2 | h2
    · exact Or.inl (Or.inr ⟨h, Or.inl h2⟩)
    · rcases le_total a.2.2 b.2.2 with h3 | h3
      · exact Or.inl (Or.inr ⟨h, Or.inr ⟨h2, h3⟩⟩)
      · exact Or.inr (Or.inr ⟨h.symm, Or.inr ⟨h2.symm, h3⟩⟩)
    · exact Or.inr (Or.inr ⟨h.symm, Or.inl h2⟩)
  · exact Or.inr (Or.inl h)

theorem keyLe_trans {a b c : OrderKey} (h1 : keyLe a b) (h2 : keyLe b c) :
    keyLe a c := by
  unfold keyLe at h1 h2 ⊢
  rcases h1 with h1 | ⟨h1, h1'⟩
  · rcases h2 with h2 | ⟨h2, _⟩
    · exact Or.inl (h1.trans h2)
    · exact Or.inl (h2 ▸ h1)
  · rcases h2 with h2 | ⟨h2, h2'⟩
    · exact Or.inl (h1 ▸ h2)
    · refine Or.inr ⟨h1.trans h2, ?_⟩
      rcases h1' with h1' | ⟨h1', h1''⟩
      · rcases h2' with h2' | ⟨h2', _⟩
        · exact Or.inl (h1'.trans h2')
        · exact Or.inl (h2' ▸ h1')
      · rcases h2' with h2' | ⟨h2', h2''⟩
        · exact Or.inl (h1' ▸ h2')
        · exact Or.inr ⟨h1'.trans h2', h1''.trans h2''⟩

theorem sortByKey_sorted {α : Type} (k : α → OrderKey) (l : List α) :
    (sortByKey k l).Sorted (fun a b => keyLe (k a) (k b)) := by
  haveI : IsTotal α (fun a b => keyLe (k a) (k b)) :=
    ⟨fun a b => keyLe_total (k a) (k b)⟩
  haveI : IsTrans α (fun a b => keyLe (k a) (k b)) :=
    ⟨fun _ _ _ h1 h2 => keyLe_trans h1 h2⟩
  exact List.sorted_insertionSort _ l

theorem sortByKey_idem {α : Type} (k : α → OrderKey) (l : List α) :
    sortByKey k (sortByKey k l) = sortByKey k l :=
  (sortByKey_sorted k l).insertionSort_eq

theorem sortByKey_mem {α : Type} (k : α → OrderKey) (l : List α) (x : α) :
    x ∈ sortByKey k l ↔ x ∈ l := List.mem_insertionSort _

theorem reorderList_eq_map (S : SchemaModel) :
    ∀ l : List PNode, reorderList S l = l.map (reorderNode S) := by
  intro l
  induction l with
  | nil => rfl
  | cons n ns ih => simp [reorderList, ih]

mutual

theorem reorderNode_idem (S : SchemaModel) :
    (n : PNode) → reorderNode S (reorderNode S n) = reorderNode S n
  | .node t p a ats cs ch => by
    have hfix := reorderList_fix S cs
    rw [reorderNode, reorderNode]
    congr 1
    · exact sortByKey_idem _ ats
    · have h1 : reorderList S (sortByKey (childKey S t) (reorderList S cs)) =
          sortByKey (childKey S t) (reorderList S cs) := by
        rw [reorderList_eq_map]
        have hpt : ∀ x ∈ sortByKey (childKey S t) (reorderList S cs),
            reorderNode S x = x := by
          intro x hx
          exact hfix x ((sortByKey_mem _ _ _).mp hx)
        calc (sortByKey (childKey S t) (reorderList S cs)).map (reorderNode S)
            = (sortByKey (childKey S t) (reorderList S cs)).map id :=
              List.map_congr_left hpt
          _ = sortByKey (childKey S t) (reorderList S cs) := List.map_id _
      rw [h1]
      exact sortByKey_idem _ _

theorem reorderList_fix (S : SchemaModel) :
    (l : List PNode) → ∀ x ∈ reorderList S l, reorderNode S x = x
  | [], x, hx => by simp [reorderList] at hx
  | n :: ns, x, hx => by
    rw [reorderList] at hx
    rcases List.mem_cons.mp hx with h | h
    · rw [h]
      exact reorderNode_idem S n
    · exact reorderList_fix S ns x h

end

/-! ### Claim theorems -/

/-- Claim C1: for a schema declaring root type act with required children
meta (1..1) and body (1..1), expand of act on the empty document returns
a document whose single act node contains both meta and body, with meta
ordered before body, and each of them recursively expanded so that their
own required children (and required attributes) are satisfied. -/
theorem expand_act_scenario :
    expand actSchema "act" [] = [actExpanded] ∧
      requiredSatisfiedL actSchema (expand actSchema "act" []) = true :=
  ⟨rfl, rfl⟩

/-- Claim C2: expand is idempotent — for every type and every document a
second expansion of the same type changes nothing, so elements and
attributes already satisfied are never duplicated. -/
theorem expand_idempotent :
    ∀ (S : SchemaModel) (t : String) (d : List PNode),
      expand S t (expand S t d) = expand S t d := by
  intro S t d
  obtain ⟨hB, hE⟩ := expandNode_fix S (expandFuel S)
  unfold expand expandAux
  by_cases h : d.any (hasType t) = true
  · simp only [h, if_true]
    have hfun : (hasType t ∘ fun n =>
        if hasType t n then expandNode S (expandFuel S) [] n else n) = hasType t := by
      funext n
      by_cases hn : hasType t n = true <;>
        simp [Function.comp, hn, hasType_expandNode]
    have hany : (d.map (fun n =>
        if hasType t n then expandNode S (expandFuel S) [] n else n)).any
          (hasType t) = true := by
      rw [List.any_map, hfun]; exact h
    rw [hany]
    simp only [if_true]
    rw [List.map_map]
    apply List.map_congr_left
    intro n _
    by_cases hn : hasType t n = true
    · simp only [Function.comp, hn, if_true, hasType_expandNode, hE [] n]
    · simp only [Function.comp, hn, if_false]
      simp [Bool.not_eq_true] at hn
      simp [hn]
  · rw [if_neg h]
    have hany : (d ++ [buildNode S (expandFuel S) [] t]).any (hasType t) = true := by
      simp [List.any_append, hasType_buildNode]
    rw [if_pos hany]
    rw [List.map_append]
    have hd : d.map (fun n =>
        if hasType t n then expandNode S (expandFuel S) [] n else n) = d := by
      have hall := List.any_eq_false.mp (Bool.not_eq_true _ |>.mp h)
      have := List.map_congr_left (l := d)
        (f := fun n => if hasType t n then expandNode S (expandFuel S) [] n else n)
        (g := id) (fun n hn => by simp [Bool.eq_false_iff.mpr (hall n hn)])
      simpa using this
    rw [hd]
    have hb : [buildNode S (expandFuel S) [] t].map (fun n =>
        if hasType t n then expandNode S (expandFuel S) [] n else n) =
        [buildNode S (expandFuel S) [] t] := by
      simp [hasType_buildNode, hB [] t]
    rw [hb]

/-- Claim C3: expand and collapse are atomic — every call either returns
a complete document delta (the ok case, which application surfaces
whole) or an error, in which case applying the result leaves the
document exactly unchanged; there is no partial delta. -/
theorem cascade_atomic :
    ∀ (S : SchemaModel) (t : String) (d : List PNode),
      ((∃ d2, expandE S t d = Except.ok d2 ∧ applyCascade (expandE S t d) d = d2) ∨
        (∃ e, expandE S t d = Except.error e ∧ applyCascade (expandE S t d) d = d)) ∧
      ((∃ d2, collapseE S t d = Except.ok d2 ∧ applyCascade (collapseE S t d) d = d2) ∨
        (∃ e, collapseE S t d = Except.error e ∧ applyCascade (collapseE S t d) d = d)) := by
  intro S t d
  constructor
  · unfold expandE
    cases lookupType S t with
    | none => exact Or.inr ⟨CascadeError.unknownType t, rfl, rfl⟩
    | some et => exact Or.inl ⟨expand S t d, rfl, rfl⟩
  · unfold collapseE
    cases lookupType S t with
    | none => exact Or.inr ⟨CascadeError.unknownType t, rfl, rfl⟩
    | some et => exact Or.inl ⟨collapseDoc t d, rfl, rfl⟩

/-- Claim C4: validate is deterministic — two calls on unchanged inputs
return the identical diagnostic list, and the output is sorted by source
position with the fixed rule-priority tiebreak. -/
theorem validate_deterministic :
    ∀ (d : List PNode) (S : SchemaModel),
      validate d S = validate d S ∧ (validate d S).Sorted diagLe := by
  intro d S
  exact ⟨rfl, List.sorted_insertionSort diagLe (runModules ruleRegistry d S)⟩

/-- Claim C5: choice exclusivity — whenever any node of the document has
a child-type name that appears both in its plain child list and in its
choice block, validation emits at least one diagnostic, so the document
is not accepted as valid. -/
theorem choice_exclusivity :
    ∀ (S : SchemaModel) (d : List PNode) (n : PNode) (c : String),
      n ∈ allNodesL d → c ∈ childTypeNamesOf n → c ∈ choiceMemberNames n →
      validate d S ≠ [] := by
  intro S d n c hn hc hm
  have hcf : c ∈ (childTypeNamesOf n).filter (fun c => c ∈ choiceMemberNames n) :=
    List.mem_filter.mpr ⟨hc, by simpa using hm⟩
  have hdiag : (⟨Severity.error, "choice.duplicate-in-choice",
      "child " ++ c ++ " appears in both the child list and the choice block",
      n.posOf, 5, none⟩ : Diagnostic) ∈ nodeChoiceDiags S n := by
    unfold nodeChoiceDiags
    exact List.mem_append_left _ (List.mem_append_left _ (List.mem_map_of_mem _ hcf))
  have hchoice : (⟨Severity.error, "choice.duplicate-in-choice",
      "child " ++ c ++ " appears in both the child list and the choice block",
      n.posOf, 5, none⟩ : Diagnostic) ∈ choiceCore d S := by
    unfold choiceCore
    exact List.mem_flatten.mpr ⟨nodeChoiceDiags S n,
      List.mem_map_of_mem _ hn, hdiag⟩
  have hrun : (⟨Severity.error, "choice.duplicate-in-choice",
      "child " ++ c ++ " appears in both the child list and the choice block",
      n.posOf, 5, none⟩ : Diagnostic) ∈ runModules ruleRegistry d S := by
    unfold runModules
    refine List.mem_flatten.mpr ⟨choiceCore d S, ?_, hchoice⟩
    have hmem : choiceModule ∈ ruleRegistry := by
      unfold ruleRegistry; simp
    have hmd : moduleDiags choiceModule d S = choiceCore d S := rfl
    rw [← hmd]
    exact List.mem_map_of_mem _ hmem
  have hval : (⟨Severity.error, "choice.duplicate-in-choice",
      "child " ++ c ++ " appears in both the child list and the choice block",
      n.posOf, 5, none⟩ : Diagnostic) ∈ validate d S := by
    unfold validate
    exact (List.mem_insertionSort diagLe).mpr hrun
  exact List.ne_nil_of_mem hval

/-- Witness for claim C5: a concrete node whose child type section also
appears in its choice block makes validation emit a diagnostic. -/
theorem choice_exclusivity_witness :
    dupNode ∈ allNodesL [dupNode] ∧ "section" ∈ childTypeNamesOf dupNode ∧
      "section" ∈ choiceMemberNames dupNode ∧ validate [dupNode] [] ≠ [] := by
  have hn : dupNode ∈ allNodesL [dupNode] := by
    simp [allNodesL, allNodesN, dupNode, dupChild]
  have hc : "section" ∈ childTypeNamesOf dupNode := by decide
  have hm : "section" ∈ choiceMemberNames dupNode := by decide
  exact ⟨hn, hc, hm, choice_exclusivity [] [dupNode] dupNode "section" hn hc hm⟩

/-- Claim C6: expand terminates on every input, recursive schemas
included — raising the recursion fuel beyond the engine bound never
changes the result, so the guarded recursion has already reached its
base cases, and on the self-referential component schema the expansion
contains exactly one mandatory component instance instead of unbounded
nesting. -/
theorem expand_terminating :
    (∀ (S : SchemaModel) (t : String) (d : List PNode) (k : Nat),
      expandAux S (expandFuel S + k) t d = expand S t d) ∧
    expand recSchema "component" [] =
      [PNode.node "component" ⟨0, 0⟩ none [] [] []] ∧
    countTypeL "component" (expand recSchema "component" []) = 1 :=
  ⟨fun S t d k => expandAux_stab S t d k, rfl, rfl⟩

/-- Claim C7: reorder is idempotent — canonical ordering is a fixed
point, so reapplying it to an already reordered document changes
nothing. -/
theorem reorder_idempotent :
    ∀ (S : SchemaModel) (d : List PNode),
      reorder S (reorder S d) = reorder S d := by
  intro S d
  unfold reorder
  have h1 : reorderList S (sortByKey (rootKey S) (reorderList S d)) =
      sortByKey (rootKey S) (reorderList S d) := by
    rw [reorderList_eq_map]
    have hfix : ∀ x ∈ sortByKey (rootKey S) (reorderList S d),
        reorderNode S x = x := by
      intro x hx
      exact reorderList_fix S d x ((sortByKey_mem _ _ _).mp hx)
    calc (sortByKey (rootKey S) (reorderList S d)).map (reorderNode S)
        = (sortByKey (rootKey S) (reorderList S d)).map id :=
          List.map_congr_left hfix
      _ = sortByKey (rootKey S) (reorderList S d) := List.map_id _
  rw [h1]
  exact sortByKey_idem _ _

/-- Claim C8: rule-module isolation — when a module fails, it is caught
at the module boundary and contributes zero diagnostics, and the engine
output over the registry with the failing module equals the output over
the registry without it; the pass never aborts. -/
theorem rule_module_isolation :
    ∀ (pre post : List RuleModule) (m : RuleModule) (d : List PNode)
      (S : SchemaModel) (e : RuleCrash),
      m d S = Except.error e →
      moduleDiags m d S = [] ∧
        runModules (pre ++ m :: post) d S = runModules (pre ++ post) d S := by
  intro pre post m d S e h
  have h0 : moduleDiags m d S = [] := by
    unfold moduleDiags
    rw [h]
  refine ⟨h0, ?_⟩
  unfold runModules
  rw [List.map_append, List.map_append, List.map_cons,
    List.flatten_append, List.flatten_append, List.flatten_cons, h0]
  simp

/-- Witness for claim C8: a concrete always-failing module placed in
front of the six-module registry contributes nothing and leaves the
registry output unchanged. -/
theorem rule_module_isolation_witness :
    crashingModule [] [] = Except.error (RuleCrash.crashed "boom") ∧
      moduleDiags crashingModule [] [] = [] ∧
        runModules ([] ++ crashingModule :: ruleRegistry) [] [] =
          runModules ([] ++ ruleRegistry) [] [] :=
  ⟨rfl, rule_module_isolation [] ruleRegistry crashingModule [] []
    (RuleCrash.crashed "boom") rfl⟩

/-- Claim C9: the akn-profiler.cursorToLine command clamps its target —
for every line and character argument, the computed position has line at
most lineCount - 1 and character at least 0. -/
theorem cursorToLine_clamped :
    ∀ (line character : Int) (lineCount : Nat),
      (cursorTarget line character lineCount).1 ≤ (lineCount : Int) - 1 ∧
        0 ≤ (cursorTarget line character lineCount).2 := by
  intro l c n
  exact ⟨min_le_right _ _, le_max_left _ _⟩

/-- Claim C10: isAknProfile returns true exactly when the languageId is
akn-profile or the lowercased file name ends with .akn.yaml or .akn.yml;
the check is case-insensitive, so TEST.AKN.YAML is recognized. -/
theorem isAknProfile_spec :
    (∀ languageId fileName : String,
      isAknProfile languageId fileName = true ↔
        (languageId = "akn-profile" ∨
          strEndsWith (lowerStr fileName) ".akn.yaml" = true ∨
          strEndsWith (lowerStr fileName) ".akn.yml" = true)) ∧
    isAknProfile "yaml" "TEST.AKN.YAML" = true := by
  constructor
  · intro lid fn
    unfold isAknProfile
    by_cases h : lid = "akn-profile"
    · simp [h]
    · have hb : (lid == "akn-profile") = false := by
        simpa using h
      rw [hb]
      simp [h, Bool.or_eq_true]
  · rfl

end AknProfiler
